import Mathlib

/-!
Shallow embedding of the go-no-nil-linter analyzer core
(src/analyzer/analyzer.go, src/analyzer/detector.go, src/analyzer/messages.go
and the response-predicate file) together with proofs about it.

Modelling conventions:
  - go/types type information is embedded as `GoType` together with a table of
    named types (`TypeTable`), since Go named types may refer to themselves
    through their fields.  `GoType.named n` is a reference into the table.
  - `go/ast` expressions are embedded as `GoExpr`; every expression carries the
    static type that `pass.TypesInfo.TypeOf` would report for it (`none` when
    the type checker has no entry) and its source position (a `Nat` standing
    for `token.Pos`).  Identifier expressions carry the identity of the object
    that `pass.TypesInfo.ObjectOf` resolves them to (`Option Nat`) and whether
    `pass.TypesInfo.Types[ident].Value` is a non-nil constant.
  - Diagnostics are embedded structurally: `DiagKind` has one constructor per
    `pass.Reportf` format string appearing in the source, and the format
    arguments are kept as a list of strings, in order.
  - All functions that recurse through declarations (a non-structural
    recursion in the source: a traced variable jumps to its declaration
    elsewhere in the unit) take a fuel argument and return `none` when the
    fuel is exhausted; `some` results are exact runs of the source code.
-/

namespace GoNoNil

/-! ### Types (go/types view) -/

/-- Embedding of `go/types.Type` as used by the analyzer.  `named n` refers to
an entry of the `TypeTable` (the reference breaks the cycle for selfreferential
struct types).  `basic` covers predeclared scalar types. -/
inductive GoType where
  | pointer (elem : GoType)
  | slice (elem : GoType)
  | array (elem : GoType)
  | mapT (key : GoType) (elem : GoType)
  | named (n : String)
  | interfaceT
  | basic (b : String)
deriving DecidableEq, Repr

/-- One struct field as `go/types` reports it: name, type and exported flag
(`types.Var.Exported`). -/
structure GoField where
  name : String
  fieldType : GoType
  exported : Bool
deriving DecidableEq, Repr

/-- What `go/types` knows about a named type: its name (`obj.Name()`), its
package path (`obj.Pkg().Path()`, empty for a nil package), its underlying
struct fields (`none` when the underlying type is not a struct) and whether the
type has the `ProtoMessage()` niladic method (`hasProtoMessageMethod` in
messages.go). -/
structure NamedInfo where
  name : String
  pkgPath : String
  structFields : Option (List GoField)
  hasProtoMessage : Bool
deriving DecidableEq, Repr

abbrev TypeTable := List NamedInfo

def lookupNamed (tt : TypeTable) (n : String) : Option NamedInfo :=
  tt.find? (fun i => i.name == n)

/-! ### String helpers (strings.Contains / strings.HasSuffix) -/

def listStarts : List Char → List Char → Bool
  | [], _ => true
  | _ :: _, [] => false
  | a :: as, b :: bs => a == b && listStarts as bs

def listHasRun (pat : List Char) : List Char → Bool
  | [] => listStarts pat []
  | b :: bs => listStarts pat (b :: bs) || listHasRun pat bs

/-- `strings.Contains s pat`. -/
def strContainsSub (s pat : String) : Bool :=
  listHasRun pat.toList s.toList

/-- `strings.HasSuffix s suffix`. -/
def strEndsWith (s suffix : String) : Bool :=
  listStarts suffix.toList.reverse s.toList.reverse

/-! ### messages.go -/

/-- Pointer dereference step used all over the source:
`if ptr, ok := t.(*types.Pointer); ok { t = ptr.Elem() }`. -/
def derefPointer : GoType → GoType
  | .pointer e => e
  | t => t

/-- The type assertion `_, ok := t.(*types.Pointer)`. -/
def GoType.isPtr : GoType → Bool
  | .pointer _ => true
  | _ => false

/-- `hasProtoMessageMethod` (messages.go): the table records whether the named
type has a niladic `ProtoMessage()` method. -/
def hasProtoMsgMethod (i : NamedInfo) : Bool :=
  i.hasProtoMessage

/-- `isProtobufMessageType` (messages.go): dereference a pointer, require a
named type with the `ProtoMessage()` method. -/
def isProtobufMessageType (tt : TypeTable) (t : GoType) : Bool :=
  match derefPointer t with
  | .named n =>
    match lookupNamed tt n with
    | some i => hasProtoMsgMethod i
    | none => false
  | _ => false

/-- `isResponseMessage` (response-predicate file): a pointer-dereferenced named
protobuf message type whose name ends in Response, Reply or Result. -/
def isResponseMessage (tt : TypeTable) (t : GoType) : Bool :=
  match derefPointer t with
  | .named n =>
    match lookupNamed tt n with
    | some i =>
      hasProtoMsgMethod i &&
        (strEndsWith n "Response" || strEndsWith n "Reply" || strEndsWith n "Result")
    | none => false
  | _ => false

/-- The fixed scalar-wrapper name registry of `isMessageField` (messages.go). -/
def scalarWrapperNames : List String :=
  ["StringValue", "Int32Value", "Int64Value", "UInt32Value", "UInt64Value",
   "FloatValue", "DoubleValue", "BoolValue", "BytesValue"]

def wellKnownPkgSub : String := "google.golang.org/protobuf/types/known"

def googleApisPkgSub : String := "google.golang.org/genproto/googleapis/type"

/-- `isMessageField` (messages.go), with the exact check order of the source:
slices are rejected first, then one pointer dereference, then the type must be
named with a `ProtoMessage()` method; the two well-known package-path substring
checks run before the scalar-wrapper name registry is consulted. -/
def isMessageField (tt : TypeTable) (field : GoField) : Bool :=
  match field.fieldType with
  | .slice _ => false
  | ft =>
    match derefPointer ft with
    | .named n =>
      match lookupNamed tt n with
      | none => false
      | some i =>
        if !hasProtoMsgMethod i then false
        else if strContainsSub i.pkgPath wellKnownPkgSub then true
        else if strContainsSub i.pkgPath googleApisPkgSub then true
        else if scalarWrapperNames.contains n then false
        else true
    | _ => false

/-- `isOptionalField` (messages.go): only a pointer-to-pointer field type is
detected as optional; the single-pointer branch of the source inspects nothing
and falls through to `false`. -/
def isOptionalField (field : GoField) : Bool :=
  match field.fieldType with
  | .pointer (.pointer _) => true
  | _ => false

/-- `getMessageFields` (messages.go): exported, message-typed, non-optional
fields of a struct, in declaration order. -/
def getMessageFields (tt : TypeTable) (fields : List GoField) : List GoField :=
  fields.filter (fun f => f.exported && isMessageField tt f && !isOptionalField f)

/-- `getStructType` (analyzer.go): dereference a pointer, require a named type
whose underlying type is a struct, and return its fields. -/
def getStructType (tt : TypeTable) (t : GoType) : Option (List GoField) :=
  match derefPointer t with
  | .named n =>
    match lookupNamed tt n with
    | some i => i.structFields
    | none => none
  | _ => none

/-- `getFieldFromType` (analyzer.go). -/
def getFieldFromType (tt : TypeTable) (t : GoType) (fieldName : String) : Option GoField :=
  match getStructType tt t with
  | some fields => fields.find? (fun f => f.name == fieldName)
  | none => none

/-- Rendering of a type for diagnostic text (`types.Type.String()`).  Named
types print their table key, which stands for the package-qualified name. -/
def GoType.str : GoType → String
  | .pointer e => "*" ++ GoType.str e
  | .slice e => "[]" ++ GoType.str e
  | .array e => "[_]" ++ GoType.str e
  | .mapT k v => "map[" ++ GoType.str k ++ "]" ++ GoType.str v
  | .named n => n
  | .interfaceT => "interface"
  | .basic b => b

/-! ### Syntax tree (go/ast view)

Every expression carries the static type `pass.TypesInfo.TypeOf` reports for
it and its `token.Pos`.  A composite-literal element is a pair: the first
component is `some name` when the element is an `ast.KeyValueExpr` whose key
is the identifier `name`; it is `none` for a positional element or for a
key-value element whose key is not an identifier (the analyzer treats those
two shapes identically: both type assertions in the source make it skip the
element).  Key expressions themselves are never inspected by the analyzer. -/

inductive GoExpr where
  /-- `ast.Ident`: name, the object `ObjectOf` resolves it to, whether
  `TypesInfo.Types[ident].Value` is a non-nil constant, type, position. -/
  | identE (name : String) (obj : Option Nat) (hasConst : Bool)
      (ty : Option GoType) (pos : Nat)
  /-- `ast.CallExpr`: callee, arguments, type, position.  The analyzer never
  inspects the callee, so an ordinary call and a type conversion with the
  same argument list are treated identically. -/
  | callE (fn : GoExpr) (args : List GoExpr) (ty : Option GoType) (pos : Nat)
  /-- `ast.CompositeLit`; identity for the visited set is its position. -/
  | compositeE (ty : Option GoType) (elts : List (Option String × GoExpr)) (pos : Nat)
  /-- `ast.UnaryExpr`; `isAnd` is `Op == token.AND`. -/
  | unaryE (isAnd : Bool) (x : GoExpr) (ty : Option GoType) (pos : Nat)
  /-- `ast.SelectorExpr`: base expression and selected name. -/
  | selectorE (x : GoExpr) (sel : String) (ty : Option GoType) (pos : Nat)
  /-- any other expression kind (basic literal, binary expression, ...). -/
  | otherE (ty : Option GoType) (pos : Nat)

abbrev Elt := Option String × GoExpr

def GoExpr.ty : GoExpr → Option GoType
  | .identE _ _ _ t _ => t
  | .callE _ _ t _ => t
  | .compositeE t _ _ => t
  | .unaryE _ _ t _ => t
  | .selectorE _ _ t _ => t
  | .otherE t _ => t

def GoExpr.pos : GoExpr → Nat
  | .identE _ _ _ _ p => p
  | .callE _ _ _ p => p
  | .compositeE _ _ p => p
  | .unaryE _ _ _ p => p
  | .selectorE _ _ _ p => p
  | .otherE _ p => p

/-- One name of an `ast.ValueSpec` (`vs.Names`): its text and the object
`ObjectOf` resolves it to. -/
structure VarName where
  name : String
  obj : Option Nat
deriving DecidableEq, Repr

/-- An `ast.ValueSpec`: `var x, y T = v1, v2`. -/
structure SpecDecl where
  names : List VarName
  values : List GoExpr

/-- A declaration site as the two search loops of detector.go see it: either a
`ValueSpec` or a short variable declaration (`AssignStmt` with `token.DEFINE`). -/
inductive DeclEntry where
  | spec (s : SpecDecl)
  | defineA (lhs rhs : List GoExpr)

/-- Statements of one translation unit, flattened: the analyzer only
distinguishes assignments, returns, declarations and the expressions inside
them. -/
inductive GoStmt where
  | varDecl (names : List VarName) (values : List GoExpr)
  | assign (isDefine : Bool) (lhs rhs : List GoExpr)
  | ret (results : List GoExpr)
  | exprStmt (e : GoExpr)

/-- A file of the unit: name (`Fset.Position(file.Pos()).Filename`) plus its
statements in source order. -/
structure GoFile where
  filename : String
  stmts : List GoStmt

/-- The inputs the fueled functions thread around: the type table, the
declaration sites of the whole unit in preorder (what the `ast.Inspect` search
loops of detector.go traverse), and `types.Object.Type()` for each object. -/
structure Env where
  tt : TypeTable
  decls : List DeclEntry
  objTypes : List (Nat × GoType)

def lookupObjType (env : Env) (o : Nat) : Option GoType :=
  (env.objTypes.find? (fun p => p.1 == o)).map (fun p => p.2)

def declMatchesObj (o : Nat) : DeclEntry → Bool
  | .spec s => s.names.any (fun nm => nm.obj == some o)
  | .defineA lhs _ =>
    lhs.any (fun e =>
      match e with
      | .identE _ obj _ _ _ => obj == some o
      | _ => false)

/-- The combined declaration search of `validateVariableMessage` (detector.go):
first preorder node that is either a matching `ValueSpec` or a matching
`:=` assignment.  An object has a single declaration site, so at most one
entry matches. -/
def findDeclEntry (decls : List DeclEntry) (o : Nat) : Option DeclEntry :=
  decls.find? (declMatchesObj o)

/-- The `ValueSpec`-only search of `isNilVariable` and
`validateVariableMessageAtPos` (detector.go): `:=` declarations are invisible
to these two functions. -/
def findSpecOnly (decls : List DeclEntry) (o : Nat) : Option SpecDecl :=
  match decls with
  | [] => none
  | .spec s :: rest =>
    if s.names.any (fun nm => nm.obj == some o) then some s else findSpecOnly rest o
  | .defineA _ _ :: rest => findSpecOnly rest o

/-- Index of the first identifier with the given object among the left-hand
sides of a `:=` assignment. -/
def findObjIdx : List GoExpr → Nat → Option Nat
  | [], _ => none
  | e :: rest, o =>
    match e with
    | .identE _ obj _ _ _ =>
      if obj == some o then some 0 else (findObjIdx rest o).map (· + 1)
    | _ => (findObjIdx rest o).map (· + 1)

/-! ### Diagnostics

One constructor per `pass.Reportf` format string of the source, in both files:
  - `nilAssign`      : nil assignment to non-optional message field <f> in
                       protobuf message <T>            (args [f, T])
  - `uninit`         : non-optional message field <f> not initialized in
                       protobuf message <T>            (args [f, T])
  - `nilAssignNested`: nil assignment to non-optional message field <ctx>.<f>
                       in protobuf message <T>         (args [ctx, f, T])
  - `uninitNested`   : non-optional message field <ctx>.<f> not initialized in
                       protobuf message <T>            (args [ctx, f, T])
  - `varZero`        : variable <name> used for field <ctx> is nil (zero
                       value)                          (args [name, ctx])
  - `atUseNil`       : variable used in <ctx> has nil in non-optional message
                       field <f> of type <T>           (args [ctx, f, T])
  - `atUseUninit`    : variable used in <ctx> has uninitialized non-optional
                       message field <f> of type <T>   (args [ctx, f, T]) -/
inductive DiagKind where
  | nilAssign
  | uninit
  | nilAssignNested
  | uninitNested
  | varZero
  | atUseNil
  | atUseUninit
deriving DecidableEq, Repr

structure Diag where
  pos : Nat
  kind : DiagKind
  args : List String
deriving DecidableEq, Repr

/-- The names marked `initialized[fieldName] = true` by the element loops of
the source: keys of key-value elements whose key is an identifier. -/
def keyedFieldNames (elts : List Elt) : List String :=
  elts.filterMap (fun e => e.1)

/-- The typed-nil shape accepted by `isNilValue` (detector.go): a call with
exactly one argument that is the identifier `nil`. -/
def isTypedNilCall : List GoExpr → Bool
  | [.identE name _ _ _ _] => name == "nil"
  | _ => false

/-! ### detector.go: the fueled validation family

Each function mirrors one function of detector.go.  Fuel decreases on every
call between family members; `none` means the fuel bound was hit, never a
behavior of the source. -/

mutual

/-- `isNilValue` (detector.go): nil literal; typed nil `(*T)(nil)`; traced
variable; `&x` recursion; everything else is non-nil. -/
def isNilValueF : Nat → Env → GoExpr → Option Bool
  | 0, _, _ => none
  | fuel + 1, env, e =>
    match e with
    | .identE name obj hasConst _ _ =>
      if name == "nil" then some true
      else isNilVariableF fuel env obj hasConst
    | .callE _ args _ _ =>
      if isTypedNilCall args then some true else some false
    | .unaryE isAnd x _ _ =>
      if isAnd then isNilValueF fuel env x else some false
    | _ => some false
termination_by structural fuel _ _ => fuel

/-- `isNilVariable` (detector.go): resolve the object, reject constants, find
the governing `ValueSpec` (`:=` declarations are not searched here); with no
initializer the zero value of a pointer or interface object type is nil;
otherwise a declaration is nil when any of its initializers is. -/
def isNilVariableF : Nat → Env → Option Nat → Bool → Option Bool
  | 0, _, _, _ => none
  | fuel + 1, env, obj, hasConst =>
    match obj with
    | none => some false
    | some o =>
      if hasConst then some false
      else
        match findSpecOnly env.decls o with
        | none => some false
        | some s =>
          if s.values.isEmpty then
            match lookupObjType env o with
            | some (.pointer _) => some true
            | some .interfaceT => some true
            | _ => some false
          else anyNilF fuel env s.values
termination_by structural fuel _ _ _ => fuel

/-- The initializer loop at the end of `isNilVariable`. -/
def anyNilF : Nat → Env → List GoExpr → Option Bool
  | 0, _, _ => none
  | _ + 1, _, [] => some false
  | fuel + 1, env, v :: rest => do
    let b ← isNilValueF fuel env v
    if b then some true else anyNilF fuel env rest
termination_by structural fuel _ _ => fuel

/-- `validateMessageValue` (detector.go).  The composite-literal case passes
the caller-supplied expression type on as the literal type, exactly as the
source does. -/
def validateMessageValueF : Nat → Env → GoExpr → GoType → String → Option (List Diag)
  | 0, _, _, _, _ => none
  | fuel + 1, env, e, exprType, ctx =>
    match e with
    | .identE name obj _ _ pos =>
      validateVariableMessageF fuel env name obj pos exprType ctx
    | .compositeE _ elts pos =>
      validateCompositeLiteralMessageF fuel env elts pos exprType ctx
    | .unaryE isAnd x _ _ =>
      if isAnd then validateMessageValueF fuel env x exprType ctx else some []
    | _ => some []
termination_by structural fuel _ _ _ _ => fuel

/-- `validateVariableMessage` (detector.go): search both `:=` and `var`
declarations; a `var` with no initializer and a pointer expression type is the
implicit-nil report; otherwise recurse through the initializers. -/
def validateVariableMessageF :
    Nat → Env → String → Option Nat → Nat → GoType → String → Option (List Diag)
  | 0, _, _, _, _, _, _ => none
  | fuel + 1, env, name, obj, identPos, exprType, ctx =>
    match obj with
    | none => some []
    | some o =>
      match findDeclEntry env.decls o with
      | some (.defineA lhs rhs) =>
        match findObjIdx lhs o with
        | some i =>
          match rhs.get? i with
          | some value => handleValidationF fuel env value exprType ctx identPos
          | none => some []
        | none => some []
      | some (.spec s) =>
        if s.values.isEmpty then
          if exprType.isPtr then some [⟨identPos, .varZero, [name, ctx]⟩]
          else some []
        else specLoopF fuel env s.names s.values 0 o exprType ctx identPos
      | none => some []

/-- The `for i, name := range decl.Names` loop of `validateVariableMessage`:
every name resolving to the object with an initializer in range is validated
through `handleValidation`. -/
def specLoopF :
    Nat → Env → List VarName → List GoExpr → Nat → Nat → GoType → String → Nat →
    Option (List Diag)
  | 0, _, _, _, _, _, _, _, _ => none
  | _ + 1, _, [], _, _, _, _, _, _ => some []
  | fuel + 1, env, nm :: rest, values, i, o, exprType, ctx, identPos => do
    let d1 ←
      if nm.obj == some o then
        match values.get? i with
        | some value => handleValidationF fuel env value exprType ctx identPos
        | none => some []
      else some []
    let d2 ← specLoopF fuel env rest values (i + 1) o exprType ctx identPos
    some (d1 ++ d2)
termination_by structural fuel _ _ _ _ _ _ _ _ => fuel

/-- `handleValidation` (detector.go): a composite literal, or an address-of
around one, is validated at the use position with the type recorded for the
composite literal itself. -/
def handleValidationF : Nat → Env → GoExpr → GoType → String → Nat → Option (List Diag)
  | 0, _, _, _, _, _ => none
  | fuel + 1, env, value, _exprType, ctx, reportPos =>
    match value with
    | .compositeE ty elts _ =>
      match ty with
      | some compType =>
        validateCompositeLiteralMessageAtUseF fuel env elts compType ctx reportPos
      | none => some []
    | .unaryE true (.compositeE ty elts _) _ _ =>
      match ty with
      | some compType =>
        validateCompositeLiteralMessageAtUseF fuel env elts compType ctx reportPos
      | none => some []
    | _ => some []

/-- `validateCompositeLiteralMessage` (detector.go): nested at-declaration
validation; nil elements are reported at the value position with the dotted
context, missing required fields at the literal position. -/
def validateCompositeLiteralMessageF :
    Nat → Env → List Elt → Nat → GoType → String → Option (List Diag)
  | 0, _, _, _, _, _ => none
  | fuel + 1, env, elts, litPos, litType, ctx =>
    match getStructType env.tt litType with
    | none => some []
    | some structFields =>
      let messageFields := getMessageFields env.tt structFields
      if messageFields.isEmpty then some []
      else do
        let eltDiags ← goEltsNestedF fuel env elts messageFields litType ctx
        some (eltDiags ++
          (messageFields.filter
              (fun f => !(keyedFieldNames elts).contains f.name)).map
            (fun f => ⟨litPos, .uninitNested, [ctx, f.name, litType.str]⟩))
termination_by structural fuel _ _ _ _ _ => fuel

/-- The element loop of `validateCompositeLiteralMessage`. -/
def goEltsNestedF :
    Nat → Env → List Elt → List GoField → GoType → String → Option (List Diag)
  | 0, _, _, _, _, _ => none
  | _ + 1, _, [], _, _, _ => some []
  | fuel + 1, env, (key, value) :: rest, messageFields, litType, ctx => do
    let d1 ←
      match key with
      | none => some []
      | some fieldName =>
        match messageFields.find? (fun f => f.name == fieldName) with
        | none => some []
        | some _ => do
          let b ← isNilValueF fuel env value
          if b then
            some [⟨value.pos, .nilAssignNested, [ctx, fieldName, litType.str]⟩]
          else
            match value.ty with
            | some valueType =>
              if isProtobufMessageType env.tt valueType then
                validateMessageValueF fuel env value valueType (ctx ++ "." ++ fieldName)
              else some []
            | none => some []
    let d2 ← goEltsNestedF fuel env rest messageFields litType ctx
    some (d1 ++ d2)
termination_by structural fuel _ _ _ _ _ => fuel

/-- `validateCompositeLiteralMessageAtUse` (detector.go): like the nested
validation but every report carries the original use position. -/
def validateCompositeLiteralMessageAtUseF :
    Nat → Env → List Elt → GoType → String → Nat → Option (List Diag)
  | 0, _, _, _, _, _ => none
  | fuel + 1, env, elts, litType, ctx, reportPos =>
    match getStructType env.tt litType with
    | none => some []
    | some structFields =>
      let messageFields := getMessageFields env.tt structFields
      if messageFields.isEmpty then some []
      else do
        let eltDiags ← goEltsAtUseF fuel env elts messageFields litType ctx reportPos
        some (eltDiags ++
          (messageFields.filter
              (fun f => !(keyedFieldNames elts).contains f.name)).map
            (fun f => ⟨reportPos, .atUseUninit, [ctx, f.name, litType.str]⟩))
termination_by structural fuel _ _ _ _ _ => fuel

/-- The element loop of `validateCompositeLiteralMessageAtUse`. -/
def goEltsAtUseF :
    Nat → Env → List Elt → List GoField → GoType → String → Nat → Option (List Diag)
  | 0, _, _, _, _, _, _ => none
  | _ + 1, _, [], _, _, _, _ => some []
  | fuel + 1, env, (key, value) :: rest, messageFields, litType, ctx, reportPos => do
    let d1 ←
      match key with
      | none => some []
      | some fieldName =>
        match messageFields.find? (fun f => f.name == fieldName) with
        | none => some []
        | some _ => do
          let b ← isNilValueF fuel env value
          if b then
            some [⟨reportPos, .atUseNil, [ctx, fieldName, litType.str]⟩]
          else
            match value.ty with
            | some valueType =>
              if isProtobufMessageType env.tt valueType then
                validateMessageValueAtPosF fuel env value valueType
                  (ctx ++ "." ++ fieldName) reportPos
              else some []
            | none => some []
    let d2 ← goEltsAtUseF fuel env rest messageFields litType ctx reportPos
    some (d1 ++ d2)
termination_by structural fuel _ _ _ _ _ _ => fuel

/-- `validateMessageValueAtPos` (detector.go): only identifiers, composite
literals and address-of are handled; calls and selectors fall through. -/
def validateMessageValueAtPosF :
    Nat → Env → GoExpr → GoType → String → Nat → Option (List Diag)
  | 0, _, _, _, _, _ => none
  | fuel + 1, env, e, exprType, ctx, reportPos =>
    match e with
    | .identE name obj _ _ _ =>
      validateVariableMessageAtPosF fuel env name obj exprType ctx reportPos
    | .compositeE _ elts _ =>
      validateCompositeLiteralMessageAtUseF fuel env elts exprType ctx reportPos
    | .unaryE true x _ _ =>
      validateMessageValueAtPosF fuel env x exprType ctx reportPos
    | _ => some []
termination_by structural fuel _ _ _ _ _ => fuel

/-- `validateVariableMessageAtPos` (detector.go): note that this search only
covers `ValueSpec` declarations, not `:=` declarations. -/
def validateVariableMessageAtPosF :
    Nat → Env → String → Option Nat → GoType → String → Nat → Option (List Diag)
  | 0, _, _, _, _, _, _ => none
  | fuel + 1, env, name, obj, exprType, ctx, reportPos =>
    match obj with
    | none => some []
    | some o =>
      match findSpecOnly env.decls o with
      | none => some []
      | some s =>
        if s.values.isEmpty then
          if exprType.isPtr then some [⟨reportPos, .varZero, [name, ctx]⟩]
          else some []
        else specLoopAtPosF fuel env s.names s.values 0 o exprType ctx reportPos
termination_by structural fuel _ _ _ _ _ _ => fuel

/-- The name loop of `validateVariableMessageAtPos`: a direct composite
initializer is validated with the caller-supplied expression type; an
address-of composite with the type recorded for the composite itself. -/
def specLoopAtPosF :
    Nat → Env → List VarName → List GoExpr → Nat → Nat → GoType → String → Nat →
    Option (List Diag)
  | 0, _, _, _, _, _, _, _, _ => none
  | _ + 1, _, [], _, _, _, _, _, _ => some []
  | fuel + 1, env, nm :: rest, values, i, o, exprType, ctx, reportPos => do
    let d1 ←
      if nm.obj == some o then
        match values.get? i with
        | some value =>
          match value with
          | .compositeE _ elts _ =>
            validateCompositeLiteralMessageAtUseF fuel env elts exprType ctx reportPos
          | .unaryE true (.compositeE ty elts _) _ _ =>
            match ty with
            | some compType =>
              validateCompositeLiteralMessageAtUseF fuel env elts compType ctx reportPos
            | none => some []
          | _ => some []
        | none => some []
      else some []
    let d2 ← specLoopAtPosF fuel env rest values (i + 1) o exprType ctx reportPos
    some (d1 ++ d2)

termination_by structural fuel _ _ _ _ _ _ _ _ => fuel
end

/-! ### analyzer.go: the two entry checks -/

/-- The `for i := 0; i < len(stmt.Lhs) && i < len(stmt.Rhs)` loop body of
`checkAssignment` (analyzer.go), over the zipped pairs. -/
def assignPairsF (fuel : Nat) (env : Env) : List (GoExpr × GoExpr) → Option (List Diag)
  | [] => some []
  | (l, r) :: rest => do
    let d1 ←
      match l with
      | .selectorE x selName _ _ =>
        match x.ty with
        | none => some []
        | some baseTy =>
          let baseType := derefPointer baseTy
          if !isResponseMessage env.tt baseType then some []
          else
            match getFieldFromType env.tt baseType selName with
            | none => some []
            | some field =>
              if !isMessageField env.tt field then some []
              else if isOptionalField field then some []
              else do
                let b ← isNilValueF fuel env r
                if b then
                  some [⟨r.pos, .nilAssign, [selName, baseType.str]⟩]
                else
                  match r.ty with
                  | some rhsType =>
                    if isProtobufMessageType env.tt rhsType then
                      validateMessageValueF fuel env r rhsType selName
                    else some []
                  | none => some []
      | _ => some []
    let d2 ← assignPairsF fuel env rest
    some (d1 ++ d2)

/-- `checkAssignment` (analyzer.go). -/
def checkAssignmentF (fuel : Nat) (env : Env) (lhs rhs : List GoExpr) : Option (List Diag) :=
  assignPairsF fuel env (lhs.zip rhs)

/-- The element loop of `checkCompositeLiteral` (analyzer.go): like the nested
loop but with the context-free report templates and the field name alone as
the recursion context. -/
def goEltsTopF (fuel : Nat) (env : Env) :
    List Elt → List GoField → GoType → Option (List Diag)
  | [], _, _ => some []
  | (key, value) :: rest, messageFields, litType => do
    let d1 ←
      match key with
      | none => some []
      | some fieldName =>
        match messageFields.find? (fun f => f.name == fieldName) with
        | none => some []
        | some _ => do
          let b ← isNilValueF fuel env value
          if b then
            some [⟨value.pos, .nilAssign, [fieldName, litType.str]⟩]
          else
            match value.ty with
            | some valueType =>
              if isProtobufMessageType env.tt valueType then
                validateMessageValueF fuel env value valueType fieldName
              else some []
            | none => some []
    let d2 ← goEltsTopF fuel env rest messageFields litType
    some (d1 ++ d2)

/-- `checkCompositeLiteral` (analyzer.go): only response message types are
checked; keyed identifier elements mark their field initialized, then every
unmarked required message field is reported at the literal position. -/
def checkCompositeLiteralF (fuel : Nat) (env : Env)
    (elts : List Elt) (litPos : Nat) (litType : GoType) : Option (List Diag) :=
  if !isResponseMessage env.tt litType then some []
  else
    match getStructType env.tt litType with
    | none => some []
    | some structFields =>
      let messageFields := getMessageFields env.tt structFields
      if messageFields.isEmpty then some []
      else do
        let eltDiags ← goEltsTopF fuel env elts messageFields litType
        some (eltDiags ++
          (messageFields.filter
              (fun f => !(keyedFieldNames elts).contains f.name)).map
            (fun f => ⟨litPos, .uninit, [f.name, litType.str]⟩))

/-! ### analyzer.go: the run entry point

The `inspector.Preorder` callback sees three node kinds; the preorder node
stream of a unit is reconstructed from the statements, listing every
composite literal nested inside the visited expressions. -/

/-- One event of the `inspector.Preorder` callback stream. -/
inductive RNode where
  | assignN (isDefine : Bool) (lhs rhs : List GoExpr)
  | compN (ty : Option GoType) (elts : List Elt) (pos : Nat)
  | retN (results : List GoExpr)

mutual

/-- Preorder composite-literal events inside one expression. -/
def exprNodesF : Nat → GoExpr → Option (List RNode)
  | 0, _ => none
  | fuel + 1, e =>
    match e with
    | .identE _ _ _ _ _ => some []
    | .callE fn args _ _ => do
      let a ← exprNodesF fuel fn
      let b ← exprListNodesF fuel args
      some (a ++ b)
    | .compositeE ty elts pos => do
      let inner ← eltListNodesF fuel elts
      some (.compN ty elts pos :: inner)
    | .unaryE _ x _ _ => exprNodesF fuel x
    | .selectorE x _ _ _ => exprNodesF fuel x
    | .otherE _ _ => some []

def exprListNodesF : Nat → List GoExpr → Option (List RNode)
  | 0, _ => none
  | _ + 1, [] => some []
  | fuel + 1, e :: rest => do
    let a ← exprNodesF fuel e
    let b ← exprListNodesF fuel rest
    some (a ++ b)

def eltListNodesF : Nat → List Elt → Option (List RNode)
  | 0, _ => none
  | _ + 1, [] => some []
  | fuel + 1, (_, value) :: rest => do
    let a ← exprNodesF fuel value
    let b ← eltListNodesF fuel rest
    some (a ++ b)

end

/-- Preorder events of one statement: the statement node itself (when it is an
assignment or a return) precedes the events of its subexpressions. -/
def stmtNodesF (fuel : Nat) : GoStmt → Option (List RNode)
  | .varDecl _ values => exprListNodesF fuel values
  | .assign isDefine lhs rhs => do
    let a ← exprListNodesF fuel lhs
    let b ← exprListNodesF fuel rhs
    some (.assignN isDefine lhs rhs :: (a ++ b))
  | .ret results => do
    let a ← exprListNodesF fuel results
    some (.retN results :: a)
  | .exprStmt e => exprNodesF fuel e

def stmtListNodesF (fuel : Nat) : List GoStmt → Option (List RNode)
  | [] => some []
  | s :: rest => do
    let a ← stmtNodesF fuel s
    let b ← stmtListNodesF fuel rest
    some (a ++ b)

/-- Declaration sites of one statement, for the search loops of detector.go. -/
def stmtDecls : GoStmt → List DeclEntry
  | .varDecl names values => [.spec ⟨names, values⟩]
  | .assign true lhs rhs => [.defineA lhs rhs]
  | _ => []

/-- The loop over return results inside `run` (analyzer.go): each composite
result is marked in the visited set and, when its type is a response message,
validated.  Returns the updated visited set, the positions validated here and
the diagnostics. -/
def retResultsF (fuel : Nat) (env : Env) :
    List GoExpr → List Nat → Option (List Nat × List Nat × List Diag)
  | [], visited => some (visited, [], [])
  | r :: rest, visited =>
    match r with
    | .compositeE ty elts pos =>
      if visited.contains pos then retResultsF fuel env rest visited
      else
        match ty with
        | some litType =>
          if isResponseMessage env.tt litType then do
            let ds ← checkCompositeLiteralF fuel env elts pos litType
            let (v2, t2, d2) ← retResultsF fuel env rest (pos :: visited)
            some (v2, pos :: t2, ds ++ d2)
          else retResultsF fuel env rest (pos :: visited)
        | none => retResultsF fuel env rest (pos :: visited)
    | _ => retResultsF fuel env rest visited

/-- The `inspect.Preorder` callback of `run` (analyzer.go), folded over the
node stream with the visited set (`analyzedComposites`, keyed by node
identity, here by position).  The middle component of the result records each
position for which `checkCompositeLiteral` was entered. -/
def runNodesF (fuel : Nat) (env : Env) :
    List RNode → List Nat → Option (List Nat × List Nat × List Diag)
  | [], visited => some (visited, [], [])
  | n :: rest, visited =>
    match n with
    | .assignN _ lhs rhs => do
      let ds ← checkAssignmentF fuel env lhs rhs
      let (v2, t2, d2) ← runNodesF fuel env rest visited
      some (v2, t2, ds ++ d2)
    | .compN ty elts pos =>
      if visited.contains pos then runNodesF fuel env rest visited
      else
        match ty with
        | some litType =>
          if isResponseMessage env.tt litType then do
            let ds ← checkCompositeLiteralF fuel env elts pos litType
            let (v2, t2, d2) ← runNodesF fuel env rest (pos :: visited)
            some (v2, pos :: t2, ds ++ d2)
          else runNodesF fuel env rest (pos :: visited)
        | none => runNodesF fuel env rest (pos :: visited)
    | .retN results => do
      let (v1, t1, d1) ← retResultsF fuel env results visited
      let (v2, t2, d2) ← runNodesF fuel env rest v1
      some (v2, t1 ++ t2, d1 ++ d2)

def pbGoSuffix : String := ".pb.go"

/-- `run` (analyzer.go): if any file of the unit has a filename ending in
`.pb.go` the whole unit is skipped with no diagnostics; otherwise the preorder
node stream is folded with an empty visited set. -/
def runUnitF (fuel : Nat) (tt : TypeTable) (objTypes : List (Nat × GoType))
    (files : List GoFile) : Option (List Diag) :=
  if files.any (fun f => strEndsWith f.filename pbGoSuffix) then some []
  else
    let env : Env :=
      ⟨tt, (files.flatMap (fun f => f.stmts)).flatMap stmtDecls, objTypes⟩
    do
      let nodes ← stmtListNodesF fuel (files.flatMap (fun f => f.stmts))
      let (_, _, ds) ← runNodesF fuel env nodes []
      some ds

/-! ### Helper lemmas about the diagnostic kinds of the nested family -/


/-- Kinds of the two top-level report templates of checkCompositeLiteral and
checkAssignment never appear in the output of the nested validation family. -/
def noTopDiag (ds : List Diag) : Prop :=
  ∀ d ∈ ds, d.kind ≠ DiagKind.uninit ∧ d.kind ≠ DiagKind.nilAssign

theorem noTopDiag_nil : noTopDiag [] := by intro d hd; cases hd

theorem noTopDiag_append {a b : List Diag} (ha : noTopDiag a) (hb : noTopDiag b) :
    noTopDiag (a ++ b) := by
  intro d hd
  rcases List.mem_append.mp hd with h | h
  · exact ha d h
  · exact hb d h

theorem noTopDiag_one {p : Nat} {k : DiagKind} {a : List String}
    (h1 : k ≠ DiagKind.uninit) (h2 : k ≠ DiagKind.nilAssign) :
    noTopDiag [⟨p, k, a⟩] := by
  intro d hd
  rcases List.mem_singleton.mp hd with rfl
  exact ⟨h1, h2⟩

theorem noTopDiag_map {α : Type} {l : List α} {g : α → Diag}
    (h : ∀ a, (g a).kind ≠ DiagKind.uninit ∧ (g a).kind ≠ DiagKind.nilAssign) :
    noTopDiag (l.map g) := by
  intro d hd
  rcases List.mem_map.mp hd with ⟨a, _, rfl⟩
  exact h a

theorem validateFamilyNoTop : ∀ fuel : Nat,
    (∀ env e t c ds, validateMessageValueF fuel env e t c = some ds → noTopDiag ds) ∧
    (∀ env nm obj p t c ds, validateVariableMessageF fuel env nm obj p t c = some ds → noTopDiag ds) ∧
    (∀ env nms vs i o t c p ds, specLoopF fuel env nms vs i o t c p = some ds → noTopDiag ds) ∧
    (∀ env v t c p ds, handleValidationF fuel env v t c p = some ds → noTopDiag ds) ∧
    (∀ env es lp t c ds, validateCompositeLiteralMessageF fuel env es lp t c = some ds → noTopDiag ds) ∧
    (∀ env es mf t c ds, goEltsNestedF fuel env es mf t c = some ds → noTopDiag ds) ∧
    (∀ env es t c p ds, validateCompositeLiteralMessageAtUseF fuel env es t c p = some ds → noTopDiag ds) ∧
    (∀ env es mf t c p ds, goEltsAtUseF fuel env es mf t c p = some ds → noTopDiag ds) ∧
    (∀ env e t c p ds, validateMessageValueAtPosF fuel env e t c p = some ds → noTopDiag ds) ∧
    (∀ env nm obj t c p ds, validateVariableMessageAtPosF fuel env nm obj t c p = some ds → noTopDiag ds) ∧
    (∀ env nms vs i o t c p ds, specLoopAtPosF fuel env nms vs i o t c p = some ds → noTopDiag ds) := by
  intro fuel
  induction fuel with
  | zero =>
    refine ⟨?_, ?_, ?_, ?_, ?_, ?_, ?_, ?_, ?_, ?_, ?_⟩ <;> intros <;>
      simp_all [validateMessageValueF, validateVariableMessageF, specLoopF,
        handleValidationF, validateCompositeLiteralMessageF, goEltsNestedF,
        validateCompositeLiteralMessageAtUseF, goEltsAtUseF, validateMessageValueAtPosF,
        validateVariableMessageAtPosF, specLoopAtPosF]
  | succ fuel ih =>
    obtain ⟨ihMV, ihVV, ihSL, ihHV, ihCL, ihEN, ihAU, ihEA, ihMP, ihVP, ihSP⟩ := ih
    refine ⟨?_, ?_, ?_, ?_, ?_, ?_, ?_, ?_, ?_, ?_, ?_⟩
    · -- validateMessageValueF
      intro env e t c ds h
      simp only [validateMessageValueF] at h
      split at h
      · exact ihVV _ _ _ _ _ _ _ h
      · exact ihCL _ _ _ _ _ _ h
      · split at h
        · exact ihMV _ _ _ _ _ h
        · cases h; exact noTopDiag_nil
      · cases h; exact noTopDiag_nil
    · -- validateVariableMessageF
      intro env nm obj p t c ds h
      simp only [validateVariableMessageF] at h
      split at h
      · cases h; exact noTopDiag_nil
      · split at h
        · split at h
          · split at h
            · exact ihHV _ _ _ _ _ _ h
            · cases h; exact noTopDiag_nil
          · cases h; exact noTopDiag_nil
        · split at h
          · split at h
            · cases h; exact noTopDiag_one (by simp) (by simp)
            · cases h; exact noTopDiag_nil
          · exact ihSL _ _ _ _ _ _ _ _ _ h
        · cases h; exact noTopDiag_nil
    · -- specLoopF
      intro env nms vs i o t c p ds h
      cases nms with
      | nil => simp only [specLoopF] at h; cases h; exact noTopDiag_nil
      | cons nm rest =>
        simp only [specLoopF] at h
        split at h
        · split at h
          · simp only [Option.bind_eq_bind, Option.some_bind, Option.bind_eq_some,
              Option.some.injEq] at h
            obtain ⟨d1, h1, d2, h2, rfl⟩ := h
            exact noTopDiag_append (ihHV _ _ _ _ _ _ h1) (ihSL _ _ _ _ _ _ _ _ _ h2)
          · simp only [Option.bind_eq_bind, Option.some_bind, Option.bind_eq_some,
              Option.some.injEq, List.nil_append] at h
            obtain ⟨d2, h2, rfl⟩ := h
            exact ihSL _ _ _ _ _ _ _ _ _ h2
        · simp only [Option.bind_eq_bind, Option.some_bind, Option.bind_eq_some,
            Option.some.injEq, List.nil_append] at h
          obtain ⟨d2, h2, rfl⟩ := h
          exact ihSL _ _ _ _ _ _ _ _ _ h2
    · -- handleValidationF
      intro env v t c p ds h
      simp only [handleValidationF] at h
      split at h
      · split at h
        · exact ihAU _ _ _ _ _ _ h
        · cases h; exact noTopDiag_nil
      · split at h
        · exact ihAU _ _ _ _ _ _ h
        · cases h; exact noTopDiag_nil
      · cases h; exact noTopDiag_nil
    · -- validateCompositeLiteralMessageF
      intro env es lp t c ds h
      simp only [validateCompositeLiteralMessageF] at h
      split at h
      · cases h; exact noTopDiag_nil
      · split at h
        · cases h; exact noTopDiag_nil
        · simp only [Option.bind_eq_bind, Option.bind_eq_some, Option.some.injEq] at h
          obtain ⟨d1, h1, rfl⟩ := h
          refine noTopDiag_append (ihEN _ _ _ _ _ _ h1) (noTopDiag_map ?_)
          intro a; exact ⟨by simp, by simp⟩
    · -- goEltsNestedF
      intro env es mf t c ds h
      cases es with
      | nil => simp only [goEltsNestedF] at h; cases h; exact noTopDiag_nil
      | cons e rest =>
        obtain ⟨key, value⟩ := e
        simp only [goEltsNestedF] at h
        split at h
        · simp only [Option.bind_eq_bind, Option.some_bind, Option.bind_eq_some,
            Option.some.injEq, List.nil_append] at h
          obtain ⟨d2, h2, rfl⟩ := h
          exact ihEN _ _ _ _ _ _ h2
        · split at h
          · simp only [Option.bind_eq_bind, Option.some_bind, Option.bind_eq_some,
              Option.some.injEq, List.nil_append] at h
            obtain ⟨d2, h2, rfl⟩ := h
            exact ihEN _ _ _ _ _ _ h2
          · simp only [Option.bind_eq_bind, Option.bind_eq_some, Option.some.injEq] at h
            obtain ⟨b, hb, h⟩ := h
            split at h
            · simp only [Option.bind_eq_bind, Option.some_bind, Option.bind_eq_some,
                Option.some.injEq] at h
              obtain ⟨d2, h2, rfl⟩ := h
              exact noTopDiag_append (noTopDiag_one (by simp) (by simp)) (ihEN _ _ _ _ _ _ h2)
            · split at h
              · split at h
                · simp only [Option.bind_eq_bind, Option.bind_eq_some, Option.some.injEq] at h
                  obtain ⟨d1, h1, d2, h2, rfl⟩ := h
                  exact noTopDiag_append (ihMV _ _ _ _ _ h1) (ihEN _ _ _ _ _ _ h2)
                · simp only [Option.bind_eq_bind, Option.some_bind, Option.bind_eq_some,
                    Option.some.injEq, List.nil_append] at h
                  obtain ⟨d2, h2, rfl⟩ := h
                  exact ihEN _ _ _ _ _ _ h2
              · simp only [Option.bind_eq_bind, Option.some_bind, Option.bind_eq_some,
                  Option.some.injEq, List.nil_append] at h
                obtain ⟨d2, h2, rfl⟩ := h
                exact ihEN _ _ _ _ _ _ h2
    · -- validateCompositeLiteralMessageAtUseF
      intro env es t c p ds h
      simp only [validateCompositeLiteralMessageAtUseF] at h
      split at h
      · cases h; exact noTopDiag_nil
      · split at h
        · cases h; exact noTopDiag_nil
        · simp only [Option.bind_eq_bind, Option.bind_eq_some, Option.some.injEq] at h
          obtain ⟨d1, h1, rfl⟩ := h
          refine noTopDiag_append (ihEA _ _ _ _ _ _ _ h1) (noTopDiag_map ?_)
          intro a; exact ⟨by simp, by simp⟩
    · -- goEltsAtUseF
      intro env es mf t c p ds h
      cases es with
      | nil => simp only [goEltsAtUseF] at h; cases h; exact noTopDiag_nil
      | cons e rest =>
        obtain ⟨key, value⟩ := e
        cases key with
        | none =>
          simp only [goEltsAtUseF, Option.bind_eq_bind, Option.some_bind,
            Option.bind_eq_some, Option.some.injEq, List.nil_append] at h
          obtain ⟨d2, h2, rfl⟩ := h
          exact ihEA _ _ _ _ _ _ _ h2
        | some fn =>
          simp only [goEltsAtUseF] at h
          split at h
          · simp only [Option.bind_eq_bind, Option.some_bind, Option.bind_eq_some,
              Option.some.injEq, List.nil_append] at h
            obtain ⟨d2, h2, rfl⟩ := h
            exact ihEA _ _ _ _ _ _ _ h2
          · simp only [Option.bind_eq_bind, Option.bind_eq_some, Option.some.injEq] at h
            obtain ⟨b, hb, h⟩ := h
            split at h
            · simp only [Option.bind_eq_bind, Option.some_bind, Option.bind_eq_some,
                Option.some.injEq] at h
              obtain ⟨d2, h2, rfl⟩ := h
              exact noTopDiag_append (noTopDiag_one (by simp) (by simp)) (ihEA _ _ _ _ _ _ _ h2)
            · split at h
              · split at h
                · simp only [Option.bind_eq_bind, Option.bind_eq_some, Option.some.injEq] at h
                  obtain ⟨d1, h1, d2, h2, rfl⟩ := h
                  exact noTopDiag_append (ihMP _ _ _ _ _ _ h1) (ihEA _ _ _ _ _ _ _ h2)
                · simp only [Option.bind_eq_bind, Option.some_bind, Option.bind_eq_some,
                    Option.some.injEq, List.nil_append] at h
                  obtain ⟨d2, h2, rfl⟩ := h
                  exact ihEA _ _ _ _ _ _ _ h2
              · simp only [Option.bind_eq_bind, Option.some_bind, Option.bind_eq_some,
                  Option.some.injEq, List.nil_append] at h
                obtain ⟨d2, h2, rfl⟩ := h
                exact ihEA _ _ _ _ _ _ _ h2
    · -- validateMessageValueAtPosF
      intro env e t c p ds h
      cases e with
      | identE nm obj hc ty pp =>
        simp only [validateMessageValueAtPosF] at h
        exact ihVP _ _ _ _ _ _ _ h
      | compositeE ty elts pp =>
        simp only [validateMessageValueAtPosF] at h
        exact ihAU _ _ _ _ _ _ h
      | unaryE isAnd x ty pp =>
        cases isAnd with
        | false =>
          simp only [validateMessageValueAtPosF] at h
          cases h; exact noTopDiag_nil
        | true =>
          simp only [validateMessageValueAtPosF] at h
          exact ihMP _ _ _ _ _ _ h
      | callE f a b cc =>
        simp only [validateMessageValueAtPosF] at h
        cases h; exact noTopDiag_nil
      | selectorE a b cc dd =>
        simp only [validateMessageValueAtPosF] at h
        cases h; exact noTopDiag_nil
      | otherE a b =>
        simp only [validateMessageValueAtPosF] at h
        cases h; exact noTopDiag_nil
    · -- validateVariableMessageAtPosF
      intro env nm obj t c p ds h
      cases obj with
      | none =>
        simp only [validateVariableMessageAtPosF] at h
        cases h; exact noTopDiag_nil
      | some o =>
        simp only [validateVariableMessageAtPosF] at h
        split at h
        · cases h; exact noTopDiag_nil
        · split at h
          · split at h
            · cases h; exact noTopDiag_one (by simp) (by simp)
            · cases h; exact noTopDiag_nil
          · exact ihSP _ _ _ _ _ _ _ _ _ h
    · -- specLoopAtPosF
      intro env nms vs i o t c p ds h
      cases nms with
      | nil => simp only [specLoopAtPosF] at h; cases h; exact noTopDiag_nil
      | cons nm rest =>
        simp only [specLoopAtPosF] at h
        split at h
        · split at h
          · split at h
            · simp only [Option.bind_eq_bind, Option.bind_eq_some, Option.some.injEq] at h
              obtain ⟨d1, h1, d2, h2, rfl⟩ := h
              exact noTopDiag_append (ihAU _ _ _ _ _ _ h1) (ihSP _ _ _ _ _ _ _ _ _ h2)
            · split at h
              · simp only [Option.bind_eq_bind, Option.bind_eq_some, Option.some.injEq] at h
                obtain ⟨d1, h1, d2, h2, rfl⟩ := h
                exact noTopDiag_append (ihAU _ _ _ _ _ _ h1) (ihSP _ _ _ _ _ _ _ _ _ h2)
              · simp only [Option.bind_eq_bind, Option.some_bind, Option.bind_eq_some,
                  Option.some.injEq, List.nil_append] at h
                obtain ⟨d2, h2, rfl⟩ := h
                exact ihSP _ _ _ _ _ _ _ _ _ h2
            · simp only [Option.bind_eq_bind, Option.some_bind, Option.bind_eq_some,
                Option.some.injEq, List.nil_append] at h
              obtain ⟨d2, h2, rfl⟩ := h
              exact ihSP _ _ _ _ _ _ _ _ _ h2
          · simp only [Option.bind_eq_bind, Option.some_bind, Option.bind_eq_some,
              Option.some.injEq, List.nil_append] at h
            obtain ⟨d2, h2, rfl⟩ := h
            exact ihSP _ _ _ _ _ _ _ _ _ h2
        · simp only [Option.bind_eq_bind, Option.some_bind, Option.bind_eq_some,
            Option.some.injEq, List.nil_append] at h
          obtain ⟨d2, h2, rfl⟩ := h
          exact ihSP _ _ _ _ _ _ _ _ _ h2


/-! ### C1 support -/

/-- A diagnostic is the top-level missing-field report for the name `nm`. -/
def isUninitFor (nm : String) (d : Diag) : Bool :=
  d.kind == DiagKind.uninit && d.args.head? == some nm

theorem countUninitZeroOfNotMem (keyed : List String) (lp : Nat) (s : String) (nm : String) :
    ∀ mfs : List GoField, nm ∉ mfs.map GoField.name →
      ((mfs.filter (fun g => !keyed.contains g.name)).map
          (fun g => (⟨lp, DiagKind.uninit, [g.name, s]⟩ : Diag))).countP (isUninitFor nm) = 0 := by
  intro mfs
  induction mfs with
  | nil => intro _; rfl
  | cons g rest ih =>
    intro hnm
    have hg : ¬(g.name = nm) := by
      intro e
      exact hnm (by rw [List.map_cons]; exact e ▸ List.mem_cons_self _ _)
    have hrest : nm ∉ rest.map GoField.name := by
      intro hm
      exact hnm (by rw [List.map_cons]; exact List.mem_cons_of_mem _ hm)
    rw [List.filter_cons]
    by_cases hk : (!keyed.contains g.name) = true
    · rw [if_pos hk, List.map_cons, List.countP_cons]
      have hp : isUninitFor nm ⟨lp, DiagKind.uninit, [g.name, s]⟩ = false := by
        simp [isUninitFor, hg]
      rw [hp, ih hrest]
      rfl
    · rw [if_neg hk]
      exact ih hrest

theorem countUninitOne (keyed : List String) (lp : Nat) (s : String) :
    ∀ (mfs : List GoField) (f : GoField), f ∈ mfs → (mfs.map GoField.name).Nodup →
      ((mfs.filter (fun g => !keyed.contains g.name)).map
          (fun g => (⟨lp, DiagKind.uninit, [g.name, s]⟩ : Diag))).countP (isUninitFor f.name)
        = if keyed.contains f.name then 0 else 1 := by
  intro mfs
  induction mfs with
  | nil => intro f hf; cases hf
  | cons g rest ih =>
    intro f hf hnd
    rw [List.map_cons, List.nodup_cons] at hnd
    obtain ⟨hgn, hndr⟩ := hnd
    rw [List.filter_cons]
    rcases List.mem_cons.mp hf with rfl | hfr
    · -- f is the head field
      have hrest0 := countUninitZeroOfNotMem keyed lp s f.name rest hgn
      cases hk : keyed.contains f.name with
      | true => exact hrest0
      | false =>
        have hp : isUninitFor f.name ⟨lp, DiagKind.uninit, [f.name, s]⟩ = true := by
          simp [isUninitFor]
        show List.countP (isUninitFor f.name)
            (List.map (fun g => (⟨lp, DiagKind.uninit, [g.name, s]⟩ : Diag))
              (f :: List.filter (fun g => !keyed.contains g.name) rest)) = 1
        rw [List.map_cons, List.countP_cons, hrest0, hp]
        rfl
    · -- f is among the remaining fields
      have hgne : ¬(g.name = f.name) := by
        intro e
        exact hgn (e ▸ List.mem_map_of_mem GoField.name hfr)
      have hp : isUninitFor f.name ⟨lp, DiagKind.uninit, [g.name, s]⟩ = false := by
        simp [isUninitFor, hgne]
      by_cases hk : (!keyed.contains g.name) = true
      · rw [if_pos hk, List.map_cons, List.countP_cons, hp, ih f hfr hndr]
        simp
      · rw [if_neg hk]
        exact ih f hfr hndr

/-- The element loop of checkCompositeLiteral never emits the missing-field
report kind: those arise only from the loop after it. -/
theorem goEltsTopNoUninit (fuel : Nat) (env : Env) :
    ∀ (elts : List Elt) (mfs : List GoField) (t : GoType) (es : List Diag),
      goEltsTopF fuel env elts mfs t = some es → ∀ d ∈ es, d.kind ≠ DiagKind.uninit := by
  intro elts
  induction elts with
  | nil =>
    intro mfs t es h d hd
    simp only [goEltsTopF] at h
    cases h
    cases hd
  | cons e rest ih =>
    intro mfs t es h d hd
    obtain ⟨key, value⟩ := e
    cases key with
    | none =>
      simp only [goEltsTopF, Option.bind_eq_bind, Option.some_bind, Option.bind_eq_some,
        Option.some.injEq, List.nil_append] at h
      obtain ⟨d2, h2, rfl⟩ := h
      exact ih _ _ _ h2 d hd
    | some fn =>
      simp only [goEltsTopF] at h
      split at h
      · simp only [Option.bind_eq_bind, Option.some_bind, Option.bind_eq_some,
          Option.some.injEq, List.nil_append] at h
        obtain ⟨d2, h2, rfl⟩ := h
        exact ih _ _ _ h2 d hd
      · simp only [Option.bind_eq_bind, Option.bind_eq_some, Option.some.injEq] at h
        obtain ⟨b, hb, h⟩ := h
        split at h
        · simp only [Option.bind_eq_bind, Option.some_bind, Option.bind_eq_some,
            Option.some.injEq] at h
          obtain ⟨d2, h2, rfl⟩ := h
          rcases List.mem_append.mp hd with hd1 | hd2
          · rcases List.mem_singleton.mp hd1 with rfl
            simp
          · exact ih _ _ _ h2 d hd2
        · split at h
          · split at h
            · simp only [Option.bind_eq_bind, Option.bind_eq_some, Option.some.injEq] at h
              obtain ⟨d1, h1, d2, h2, rfl⟩ := h
              rcases List.mem_append.mp hd with hd1 | hd2
              · exact ((validateFamilyNoTop fuel).1 _ _ _ _ _ h1 d hd1).1
              · exact ih _ _ _ h2 d hd2
            · simp only [Option.bind_eq_bind, Option.some_bind, Option.bind_eq_some,
                Option.some.injEq, List.nil_append] at h
              obtain ⟨d2, h2, rfl⟩ := h
              exact ih _ _ _ h2 d hd
          · simp only [Option.bind_eq_bind, Option.some_bind, Option.bind_eq_some,
              Option.some.injEq, List.nil_append] at h
            obtain ⟨d2, h2, rfl⟩ := h
            exact ih _ _ _ h2 d hd

/-- C1: for a Root-Type composite construction, every required message field
that appears in no keyed element gets exactly one missing-field report, at the
construction position with the field name as its path, and fields that do
appear get none. -/
theorem checkCompositeUninitExactlyOnce
    (fuel : Nat) (env : Env) (elts : List Elt) (litPos : Nat) (litType : GoType)
    (sf : List GoField) (f : GoField) (ds : List Diag)
    (hrun : checkCompositeLiteralF fuel env elts litPos litType = some ds)
    (hresp : isResponseMessage env.tt litType = true)
    (hsf : getStructType env.tt litType = some sf)
    (hf : f ∈ getMessageFields env.tt sf)
    (hnd : ((getMessageFields env.tt sf).map GoField.name).Nodup) :
    ds.countP (isUninitFor f.name)
        = (if (keyedFieldNames elts).contains f.name then 0 else 1)
      ∧ ((keyedFieldNames elts).contains f.name = false →
          (⟨litPos, DiagKind.uninit, [f.name, litType.str]⟩ : Diag) ∈ ds) := by
  have hne : (getMessageFields env.tt sf).isEmpty = false := by
    cases h2 : getMessageFields env.tt sf with
    | nil => rw [h2] at hf; cases hf
    | cons a l => rfl
  simp only [checkCompositeLiteralF, hresp, hsf, Bool.not_true, Bool.false_eq_true,
    if_false, hne, Option.bind_eq_bind, Option.bind_eq_some, Option.some.injEq] at hrun
  obtain ⟨ed, hed, rfl⟩ := hrun
  have hed0 : ed.countP (isUninitFor f.name) = 0 := by
    rw [List.countP_eq_zero]
    intro d hd
    have := goEltsTopNoUninit fuel env elts _ _ _ hed d hd
    simp [isUninitFor, this]
  constructor
  · rw [List.countP_append, hed0, Nat.zero_add]
    exact countUninitOne (keyedFieldNames elts) litPos litType.str
      (getMessageFields env.tt sf) f hf hnd
  · intro hnc
    apply List.mem_append_right
    apply List.mem_map_of_mem
    rw [List.mem_filter]
    refine ⟨hf, ?_⟩
    rw [hnc]
    rfl


/-! ### C10 support -/

theorem keyedFieldNamesNilOfPositional :
    ∀ elts : List Elt, (∀ e ∈ elts, e.1 = none) → keyedFieldNames elts = [] := by
  intro elts
  induction elts with
  | nil => intro _; rfl
  | cons e rest ih =>
    intro h
    obtain ⟨k, v⟩ := e
    have hk := h (k, v) (List.mem_cons_self _ _)
    simp only at hk
    subst hk
    simp only [keyedFieldNames, List.filterMap_cons]
    exact ih (fun e he => h e (List.mem_cons_of_mem _ he))

theorem goEltsTopPositionalNil (fuel : Nat) (env : Env) :
    ∀ (elts : List Elt) (mfs : List GoField) (t : GoType) (es : List Diag),
      (∀ e ∈ elts, e.1 = none) → goEltsTopF fuel env elts mfs t = some es → es = [] := by
  intro elts
  induction elts with
  | nil =>
    intro mfs t es _ h
    simp only [goEltsTopF] at h
    cases h; rfl
  | cons e rest ih =>
    intro mfs t es hp h
    obtain ⟨k, v⟩ := e
    have hk := hp (k, v) (List.mem_cons_self _ _)
    simp only at hk
    subst hk
    simp only [goEltsTopF, Option.bind_eq_bind, Option.some_bind, Option.bind_eq_some,
      Option.some.injEq, List.nil_append] at h
    obtain ⟨d2, h2, rfl⟩ := h
    exact ih _ _ _ (fun e he => hp e (List.mem_cons_of_mem _ he)) h2

/-- C10: with only positional (unkeyed) elements nothing is recorded as
initializing any field: every required message field of a Root-Type
construction is reported missing, and no nil report is produced. -/
theorem positionalEltsAllUninit
    (fuel : Nat) (env : Env) (elts : List Elt) (litPos : Nat) (litType : GoType)
    (sf : List GoField) (ds : List Diag)
    (hpos : ∀ e ∈ elts, e.1 = none)
    (hresp : isResponseMessage env.tt litType = true)
    (hsf : getStructType env.tt litType = some sf)
    (hrun : checkCompositeLiteralF fuel env elts litPos litType = some ds) :
    ds = (getMessageFields env.tt sf).map
        (fun f => (⟨litPos, DiagKind.uninit, [f.name, litType.str]⟩ : Diag)) := by
  have hkeyed := keyedFieldNamesNilOfPositional elts hpos
  cases hmf : getMessageFields env.tt sf with
  | nil =>
    simp only [checkCompositeLiteralF, hresp, hsf, Bool.not_true, Bool.false_eq_true,
      if_false, hmf, List.isEmpty_nil, if_true] at hrun
    cases hrun
    rfl
  | cons g rest =>
    simp only [checkCompositeLiteralF, hresp, hsf, Bool.not_true, Bool.false_eq_true,
      if_false, hmf, List.isEmpty_cons, Option.bind_eq_bind, Option.bind_eq_some,
      Option.some.injEq] at hrun
    obtain ⟨es, hes, rfl⟩ := hrun
    have hese : es = [] := goEltsTopPositionalNil fuel env elts _ _ _ hpos hes
    subst hese
    rw [List.nil_append, hkeyed]
    have hfl : List.filter (fun f => !([] : List String).contains f.name) (g :: rest)
        = g :: rest := by
      apply List.filter_eq_self.mpr
      intro a _
      rfl
    rw [hfl]

/-! ### Example fixtures used by the concrete theorems and witnesses -/

/-- Empty environment (no declarations, no named types). -/
def envEmpty : Env := ⟨[], [], []⟩

/-- A response schema with one required nested message field. -/
def ttPing : TypeTable :=
  [⟨"PingResponse", "example.com/gen", some [⟨"Data", .pointer (.named "Data"), true⟩], true⟩,
   ⟨"Data", "example.com/gen", some [], true⟩]

def envPing : Env := ⟨ttPing, [], []⟩

def fData : GoField := ⟨"Data", .pointer (.named "Data"), true⟩

/-! ### C4 -/

/-- An ordinary opaque call `f(nil)`: the callee is a plain function
identifier resolving to a function object, not a type expression, so this is
a function call and not a type-qualified construction wrapping the literal
nil. -/
def callFNil : GoExpr :=
  .callE (.identE "f" (some 9) false (some (.basic "func(*User) *User")) 1)
    [.identE "nil" none false none 2] (some (.pointer (.named "User"))) 3

/-- Counterexample to C4 as stated: the oracle answers true, not false, on
the opaque call `f(nil)`.  The source (detector.go, the typed-nil check)
accepts ANY call whose single argument is the identifier nil and never looks
at the callee, so it cannot tell a conversion `(*T)(nil)` from an ordinary
call with one nil argument. -/
theorem opaqueNilArgCallIsNil : isNilValueF 1 envEmpty callFNil = some true := by decide

/-- C4 as amended: the nullability oracle returns false for every call
expression that does not carry exactly one argument that is the literal nil
identifier (the source treats every single-nil-argument call as a typed nil,
whatever its callee is), and it returns false for every selector (member
access) expression. -/
theorem isNilValueOpaqueFalse
    (fuel : Nat) (env : Env) (fn : GoExpr) (args : List GoExpr) (cty : Option GoType)
    (cpos : Nat) (x : GoExpr) (sel : String) (sty : Option GoType) (spos : Nat)
    (h : isTypedNilCall args = false) :
    isNilValueF (fuel + 1) env (.callE fn args cty cpos) = some false
      ∧ isNilValueF (fuel + 1) env (.selectorE x sel sty spos) = some false := by
  constructor
  · show (if isTypedNilCall args = true then (some true : Option Bool) else some false)
        = some false
    rw [h]
    rfl
  · rfl

/-- Witness for C4 at a concrete call `f(x)` and selector `y.f`. -/
theorem isNilValueOpaqueFalse_witness :
    isTypedNilCall [GoExpr.identE "x" none false none 1] = false
      ∧ (isNilValueF 1 envEmpty
            (.callE (.identE "f" (some 9) false (some (.basic "func(T) T")) 0)
              [.identE "x" none false none 1] none 2) = some false
        ∧ isNilValueF 1 envEmpty (.selectorE (.identE "y" none false none 3) "f" none 4)
            = some false) :=
  ⟨rfl, isNilValueOpaqueFalse 0 envEmpty
    (.identE "f" (some 9) false (some (.basic "func(T) T")) 0)
    [.identE "x" none false none 1] none 2
    (.identE "y" none false none 3) "f" none 4 rfl⟩

/-! ### C7 -/

/-- The shape test for collection types (slice, array or map). -/
def isCollectionType : GoType → Bool
  | .slice _ => true
  | .array _ => true
  | .mapT _ _ => true
  | _ => false

/-- The element loop of checkCompositeLiteral emits its nil report only for a
name belonging to one of the required message fields it was given. -/
theorem goEltsTopNilAssignNames (fuel : Nat) (env : Env) :
    ∀ (elts : List Elt) (mfs : List GoField) (t : GoType) (es : List Diag),
      goEltsTopF fuel env elts mfs t = some es →
      ∀ d ∈ es, d.kind = DiagKind.nilAssign → ∃ g ∈ mfs, d.args.head? = some g.name := by
  intro elts
  induction elts with
  | nil =>
    intro mfs t es h d hd
    simp only [goEltsTopF] at h
    cases h
    cases hd
  | cons e rest ih =>
    intro mfs t es h d hd hk
    obtain ⟨key, value⟩ := e
    cases key with
    | none =>
      simp only [goEltsTopF, Option.bind_eq_bind, Option.some_bind, Option.bind_eq_some,
        Option.some.injEq, List.nil_append] at h
      obtain ⟨d2, h2, rfl⟩ := h
      exact ih _ _ _ h2 d hd hk
    | some fn =>
      simp only [goEltsTopF] at h
      split at h
      · simp only [Option.bind_eq_bind, Option.some_bind, Option.bind_eq_some,
          Option.some.injEq, List.nil_append] at h
        obtain ⟨d2, h2, rfl⟩ := h
        exact ih _ _ _ h2 d hd hk
      · rename_i fld hfind
        simp only [Option.bind_eq_bind, Option.bind_eq_some, Option.some.injEq] at h
        obtain ⟨b, hb, h⟩ := h
        split at h
        · simp only [Option.bind_eq_bind, Option.some_bind, Option.bind_eq_some,
            Option.some.injEq] at h
          obtain ⟨d2, h2, rfl⟩ := h
          rcases List.mem_append.mp hd with hd1 | hd2
          · rcases List.mem_singleton.mp hd1 with rfl
            refine ⟨fld, List.mem_of_find?_eq_some hfind, ?_⟩
            have := List.find?_some hfind
            simp only [beq_iff_eq] at this
            simp [this]
          · exact ih _ _ _ h2 d hd2 hk
        · split at h
          · split at h
            · simp only [Option.bind_eq_bind, Option.bind_eq_some, Option.some.injEq] at h
              obtain ⟨d1, h1, d2, h2, rfl⟩ := h
              rcases List.mem_append.mp hd with hd1 | hd2
              · exact absurd hk ((validateFamilyNoTop fuel).1 _ _ _ _ _ h1 d hd1).2
              · exact ih _ _ _ h2 d hd2 hk
            · simp only [Option.bind_eq_bind, Option.some_bind, Option.bind_eq_some,
                Option.some.injEq, List.nil_append] at h
              obtain ⟨d2, h2, rfl⟩ := h
              exact ih _ _ _ h2 d hd hk
          · simp only [Option.bind_eq_bind, Option.some_bind, Option.bind_eq_some,
              Option.some.injEq, List.nil_append] at h
            obtain ⟨d2, h2, rfl⟩ := h
            exact ih _ _ _ h2 d hd hk

/-- C7: a field whose declared type is a collection is never classified as a
required message field, belongs to no required-field list, and a checked
construction emits no missing-field or nil report naming it (when every field
of that name is collection-typed). -/
theorem collectionFieldNeverRequired
    (tt : TypeTable) (f : GoField) (h : isCollectionType f.fieldType = true) :
    isMessageField tt f = false
      ∧ (∀ fields : List GoField, f ∉ getMessageFields tt fields)
      ∧ (∀ (fuel : Nat) (env : Env) (elts : List Elt) (litPos : Nat) (litType : GoType)
           (sf : List GoField) (ds : List Diag),
          env.tt = tt →
          getStructType env.tt litType = some sf →
          (∀ g ∈ sf, g.name = f.name → isCollectionType g.fieldType = true) →
          checkCompositeLiteralF fuel env elts litPos litType = some ds →
          ds.countP (fun d =>
            (d.kind == DiagKind.uninit || d.kind == DiagKind.nilAssign)
              && d.args.head? == some f.name) = 0) := by
  have hmf : ∀ g : GoField, isCollectionType g.fieldType = true → isMessageField tt g = false := by
    intro g hg
    cases hf : g.fieldType with
    | slice e => simp [isMessageField, hf]
    | array e => simp [isMessageField, hf, derefPointer]
    | mapT k v => simp [isMessageField, hf, derefPointer]
    | pointer e => rw [hf] at hg; simp [isCollectionType] at hg
    | named n => rw [hf] at hg; simp [isCollectionType] at hg
    | interfaceT => rw [hf] at hg; simp [isCollectionType] at hg
    | basic b => rw [hf] at hg; simp [isCollectionType] at hg
  have h1 : isMessageField tt f = false := hmf f h
  have h2 : ∀ fields : List GoField, f ∉ getMessageFields tt fields := by
    intro fields hmem
    have hp := (List.mem_filter.mp hmem).2
    simp [h1] at hp
  refine ⟨h1, h2, ?_⟩
  intro fuel env elts litPos litType sf ds henv hsf hall hrun
  subst henv
  have hnotmem : ∀ g ∈ getMessageFields env.tt sf, ¬(g.name = f.name) := by
    intro g hg he
    have hgsf := (List.mem_filter.mp hg).1
    have hgp := (List.mem_filter.mp hg).2
    have hcol := hall g hgsf he
    have := hmf g hcol
    simp [this] at hgp
  rw [List.countP_eq_zero]
  intro d hd
  simp only [checkCompositeLiteralF] at hrun
  split at hrun
  · cases hrun; cases hd
  · split at hrun
    · cases hrun; cases hd
    · rename_i sf2 hsf2
      rw [hsf] at hsf2
      injection hsf2 with hsf3
      subst hsf3
      split at hrun
      · cases hrun; cases hd
      · simp only [Option.bind_eq_bind, Option.bind_eq_some, Option.some.injEq] at hrun
        obtain ⟨ed, hed, rfl⟩ := hrun
        rcases List.mem_append.mp hd with hd1 | hd2
        · -- element-loop diagnostics
          intro hp
          simp only [Bool.and_eq_true, Bool.or_eq_true, beq_iff_eq] at hp
          obtain ⟨hk, hn⟩ := hp
          rcases hk with hk | hk
          · exact goEltsTopNoUninit fuel env elts _ _ _ hed d hd1 hk
          · obtain ⟨g, hg, hgn⟩ := goEltsTopNilAssignNames fuel env elts _ _ _ hed d hd1 hk
            rw [hgn] at hn
            have hge : g.name = f.name := by
              simp only [Option.some.injEq] at hn
              exact hn
            exact hnotmem g hg hge
        · -- missing-field diagnostics
          intro hp
          simp only [Bool.and_eq_true, Bool.or_eq_true, beq_iff_eq] at hp
          obtain ⟨hk, hn⟩ := hp
          rcases List.mem_map.mp hd2 with ⟨g, hgmem, rfl⟩
          have hgm : g ∈ getMessageFields env.tt sf := (List.mem_filter.mp hgmem).1
          simp only [List.head?_cons, Option.some.injEq] at hn
          exact hnotmem g hgm hn

/-- Witness for C7 at a concrete slice-typed field inside the example table. -/
theorem collectionFieldNeverRequired_witness :
    isCollectionType (GoType.slice (.pointer (.named "Data"))) = true
      ∧ isMessageField ttPing ⟨"Items", .slice (.pointer (.named "Data")), true⟩ = false
      ∧ (⟨"Items", .slice (.pointer (.named "Data")), true⟩ : GoField)
          ∉ getMessageFields ttPing
              [fData, ⟨"Items", .slice (.pointer (.named "Data")), true⟩] :=
  ⟨rfl,
   (collectionFieldNeverRequired ttPing ⟨"Items", .slice (.pointer (.named "Data")), true⟩ rfl).1,
   (collectionFieldNeverRequired ttPing ⟨"Items", .slice (.pointer (.named "Data")), true⟩ rfl).2.1
     [fData, ⟨"Items", .slice (.pointer (.named "Data")), true⟩]⟩


/-! ### Fixtures for the run-level claims: the deep-nesting scenario of the
repository test data (testdata/src/invalid, function deeplyNestedNil),
reduced to the fields that matter.  `fileDeepDefine` declares the chain with
short `:=` declarations exactly like the fixture; `fileDeepVar` is the same
chain through `var` declarations. -/

def ttDeep : TypeTable :=
  [⟨"UserResponse", "example.com/gen/examplev1",
      some [⟨"User", .pointer (.named "User"), true⟩], true⟩,
   ⟨"User", "example.com/gen/examplev1",
      some [⟨"Address", .pointer (.named "Address"), true⟩], true⟩,
   ⟨"Address", "example.com/gen/examplev1",
      some [⟨"Location", .pointer (.named "Location"), true⟩], true⟩,
   ⟨"Location", "example.com/gen/examplev1", some [], true⟩]

def identNilDeep : GoExpr := .identE "nil" none false none 12

def compAddrDeep : GoExpr :=
  .compositeE (some (.named "Address")) [(some "Location", identNilDeep)] 13

def identAddrUse : GoExpr :=
  .identE "addr" (some 1) false (some (.pointer (.named "Address"))) 22

def compUserDeep : GoExpr :=
  .compositeE (some (.named "User")) [(some "Address", identAddrUse)] 23

def identUserUse : GoExpr :=
  .identE "user" (some 2) false (some (.pointer (.named "User"))) 32

def compRespDeep : GoExpr :=
  .compositeE (some (.named "UserResponse")) [(some "User", identUserUse)] 33

def deepObjTypes : List (Nat × GoType) :=
  [(1, .pointer (.named "Address")), (2, .pointer (.named "User"))]

/-- The `:=` version: `addr := &Address{Location: nil}`,
`user := &User{Address: addr}`, `_ = &UserResponse{User: user}`. -/
def fileDeepDefine : GoFile :=
  ⟨"invalid.go",
   [.assign true [.identE "addr" (some 1) false (some (.pointer (.named "Address"))) 10]
      [.unaryE true compAddrDeep (some (.pointer (.named "Address"))) 11],
    .assign true [.identE "user" (some 2) false (some (.pointer (.named "User"))) 20]
      [.unaryE true compUserDeep (some (.pointer (.named "User"))) 21],
    .assign false [.identE "_" none false none 30]
      [.unaryE true compRespDeep (some (.pointer (.named "UserResponse"))) 31]]⟩

/-- The same chain with `var` declarations instead of `:=`. -/
def fileDeepVar : GoFile :=
  ⟨"invalid.go",
   [.varDecl [⟨"addr", some 1⟩] [.unaryE true compAddrDeep (some (.pointer (.named "Address"))) 11],
    .varDecl [⟨"user", some 2⟩] [.unaryE true compUserDeep (some (.pointer (.named "User"))) 21],
    .assign false [.identE "_" none false none 30]
      [.unaryE true compRespDeep (some (.pointer (.named "UserResponse"))) 31]]⟩

/-! ### C9 -/

/-- C9: if any file of the unit has a filename ending in .pb.go, the run
returns immediately and the whole unit produces no diagnostics, whatever the
other files contain. -/
theorem pbGoSkipsUnit (fuel : Nat) (tt : TypeTable) (ots : List (Nat × GoType))
    (files : List GoFile)
    (h : files.any (fun f => strEndsWith f.filename pbGoSuffix) = true) :
    runUnitF fuel tt ots files = some [] := by
  simp only [runUnitF, h, if_true]

/-- Witness for C9: a generated file next to a file whose content alone
produces a diagnostic (`fileDeepVar`, cf. the second conjunct of the deep
nesting evaluation below); the unit yields nothing. -/
theorem pbGoSkipsUnit_witness :
    ([⟨"gen.pb.go", []⟩, fileDeepVar] : List GoFile).any
        (fun f => strEndsWith f.filename pbGoSuffix) = true
      ∧ runUnitF 40 ttDeep deepObjTypes [⟨"gen.pb.go", []⟩, fileDeepVar] = some [] :=
  ⟨rfl, pbGoSkipsUnit 40 ttDeep deepObjTypes [⟨"gen.pb.go", []⟩, fileDeepVar] rfl⟩


/-! ### Witnesses for C1 and C10 -/

/-- Witness for C1: an empty construction of the example response type. -/
theorem checkCompositeUninitExactlyOnce_witness :
    checkCompositeLiteralF 3 envPing [] 5 (.named "PingResponse")
        = some [⟨5, DiagKind.uninit, ["Data", "PingResponse"]⟩]
      ∧ (([⟨5, DiagKind.uninit, ["Data", "PingResponse"]⟩] : List Diag).countP
            (isUninitFor fData.name)
          = (if (keyedFieldNames ([] : List Elt)).contains fData.name then 0 else 1)
        ∧ ((keyedFieldNames ([] : List Elt)).contains fData.name = false →
            (⟨5, DiagKind.uninit, [fData.name, GoType.str (.named "PingResponse")]⟩ : Diag)
              ∈ ([⟨5, DiagKind.uninit, ["Data", "PingResponse"]⟩] : List Diag))) :=
  ⟨by decide,
   checkCompositeUninitExactlyOnce 3 envPing [] 5 (.named "PingResponse") [fData] fData
     [⟨5, DiagKind.uninit, ["Data", "PingResponse"]⟩] (by decide) (by decide) (by decide)
     (by decide) (by decide)⟩

/-- Witness for C10: a positional element carrying a value for the single
required field still leaves the field reported as uninitialized. -/
theorem positionalEltsAllUninit_witness :
    (∀ e ∈ ([(none, GoExpr.identE "x" none false none 9)] : List Elt), e.1 = none)
      ∧ checkCompositeLiteralF 3 envPing [(none, .identE "x" none false none 9)] 5
          (.named "PingResponse") = some [⟨5, DiagKind.uninit, ["Data", "PingResponse"]⟩]
      ∧ ([⟨5, DiagKind.uninit, ["Data", "PingResponse"]⟩] : List Diag)
          = (getMessageFields envPing.tt [fData]).map
              (fun f => (⟨5, DiagKind.uninit, [f.name, GoType.str (.named "PingResponse")]⟩ : Diag)) :=
  ⟨by decide, by decide,
   positionalEltsAllUninit 3 envPing [(none, .identE "x" none false none 9)] 5
     (.named "PingResponse") [fData] [⟨5, DiagKind.uninit, ["Data", "PingResponse"]⟩]
     (by decide) (by decide) (by decide) (by decide)⟩

/-! ### C3 -/

/-- A response whose single field has the boxed-string wrapper type from the
standard wrapper package (google.golang.org/protobuf/types/known/wrapperspb). -/
def ttWrap : TypeTable :=
  [⟨"WrapResponse", "example.com/gen",
      some [⟨"Payload", .pointer (.named "StringValue"), true⟩], true⟩,
   ⟨"StringValue", "google.golang.org/protobuf/types/known/wrapperspb",
      some [⟨"Value", .basic "string", true⟩], true⟩]

def wrapPayloadField : GoField := ⟨"Payload", .pointer (.named "StringValue"), true⟩

/-- C3 (code bug): a field of the standard boxed-string wrapper type is
classified as a required message field, because the well-known-package check
of isMessageField fires before the scalar-wrapper name registry (the wrapper
package path contains the well-known prefix).  Omitting the field produces a
missing-field diagnostic.  The registry is reachable only for a type of the
same name in some other package, where the field is indeed classified Scalar. -/
theorem wrapperFieldClassifiedAsMessage :
    isMessageField ttWrap wrapPayloadField = true
      ∧ checkCompositeLiteralF 5 ⟨ttWrap, [], []⟩ [] 7 (.named "WrapResponse")
          = some [⟨7, DiagKind.uninit, ["Payload", "WrapResponse"]⟩]
      ∧ isMessageField
          [⟨"StringValue", "example.com/other",
              some [⟨"Value", .basic "string", true⟩], true⟩]
          ⟨"Payload", .pointer (.named "StringValue"), true⟩ = false :=
  ⟨by decide, by decide, by decide⟩

/-! ### C5 -/

/-- Environment for the implicit-nil scenario of the repository test data
(testdata/src/invalid, function implicitNilAssignment): `var user *User` with
no initializer, then `response.User = user`. -/
def envImplicitNil : Env :=
  ⟨ttDeep, [.spec ⟨[⟨"user", some 1⟩], []⟩], [(1, .pointer (.named "User"))]⟩

/-- C5 (code bug): the assignment of the uninitialized pointer variable emits
exactly one diagnostic at the use site, but with the nil-assignment
(ExplicitNull) template naming field and owner type, not the variable-is-nil
(ImplicitNull) template naming variable and field that the fixture expects:
isNilValue already returns true for the traced variable, so checkAssignment
takes its direct-nil branch and validateVariableMessage is never reached. -/
theorem implicitNilUsesExplicitTemplate :
    checkAssignmentF 20 envImplicitNil
        [.selectorE (.identE "response" (some 2) false
            (some (.pointer (.named "UserResponse"))) 10) "User"
            (some (.pointer (.named "User"))) 11]
        [.identE "user" (some 1) false (some (.pointer (.named "User"))) 12]
      = some [⟨12, DiagKind.nilAssign, ["User", "UserResponse"]⟩]
    ∧ DiagKind.nilAssign ≠ DiagKind.varZero :=
  ⟨by decide, by decide⟩

/-! ### C2 -/

/-- C2 (code bug): with the `:=` declarations of the repository fixture
(deeplyNestedNil) the unit produces no diagnostic at all for the nil at depth
three, because validateVariableMessageAtPos searches only ValueSpec
declarations; with `var` declarations the same chain produces exactly one
diagnostic at the consumption position 32, whose context and field name
together spell the full dotted chain User.Address.Location. -/
theorem deepNestedNilDefineSilent :
    runUnitF 40 ttDeep deepObjTypes [fileDeepDefine] = some []
      ∧ runUnitF 40 ttDeep deepObjTypes [fileDeepVar]
          = some [⟨32, DiagKind.atUseNil, ["User.Address", "Location", "Address"]⟩] :=
  ⟨by decide, by decide⟩


/-! ### C6: a self-referential variable initializer -/

/-- `var a = &T{F: a}` with `type T struct { F *T }`: the identifier inside
the initializer resolves to the declared variable itself. -/
def identACyc : GoExpr := .identE "a" (some 1) false (some (.pointer (.named "T"))) 31

def compACyc : GoExpr := .compositeE (some (.named "T")) [(some "F", identACyc)] 30

def vACyc : GoExpr := .unaryE true compACyc (some (.pointer (.named "T"))) 32

def envCyc : Env :=
  ⟨[⟨"T", "example.com/m", some [⟨"F", .pointer (.named "T"), true⟩], true⟩],
   [.spec ⟨[⟨"a", some 1⟩], [vACyc]⟩], [(1, .pointer (.named "T"))]⟩

def fTCyc : GoField := ⟨"F", .pointer (.named "T"), true⟩

theorem optBindNoneLeft {α β : Type} {x : Option α} (f : α → Option β) (h : x = none) :
    Bind.bind x f = none := by rw [h]; rfl

/-- Every function on the cycle through the self-referential declaration
exhausts any fuel bound (and the nil oracle on the cycle never answers
`some true`, so the recursion is really entered). -/
theorem cycNone : ∀ fuel : Nat,
    (∀ c : String, validateVariableMessageAtPosF fuel envCyc "a" (some 1)
        (.pointer (.named "T")) c 99 = none)
    ∧ (∀ c : String, specLoopAtPosF fuel envCyc [⟨"a", some 1⟩] [vACyc] 0 1
        (.pointer (.named "T")) c 99 = none)
    ∧ (∀ c : String, validateCompositeLiteralMessageAtUseF fuel envCyc
        [(some "F", identACyc)] (.named "T") c 99 = none)
    ∧ (∀ c : String, goEltsAtUseF fuel envCyc [(some "F", identACyc)] [fTCyc]
        (.named "T") c 99 = none)
    ∧ (∀ c : String, validateMessageValueAtPosF fuel envCyc identACyc
        (.pointer (.named "T")) c 99 = none)
    ∧ isNilValueF fuel envCyc identACyc ≠ some true
    ∧ isNilVariableF fuel envCyc (some 1) false ≠ some true
    ∧ anyNilF fuel envCyc [vACyc] ≠ some true
    ∧ isNilValueF fuel envCyc vACyc ≠ some true
    ∧ isNilValueF fuel envCyc compACyc ≠ some true := by
  intro fuel
  induction fuel with
  | zero =>
    exact ⟨fun _ => rfl, fun _ => rfl, fun _ => rfl, fun _ => rfl, fun _ => rfl,
      fun h => Option.noConfusion h, fun h => Option.noConfusion h,
      fun h => Option.noConfusion h, fun h => Option.noConfusion h,
      fun h => Option.noConfusion h⟩
  | succ fuel ih =>
    obtain ⟨ih1, ih2, ih3, ih4, ih5, ih6, ih7, ih8, ih9, ih10⟩ := ih
    refine ⟨?_, ?_, ?_, ?_, ?_, ?_, ?_, ?_, ?_, ?_⟩
    · -- the variable search finds the spec and enters the name loop
      intro c
      exact ih2 c
    · -- the name loop validates the address-of composite initializer
      intro c
      exact optBindNoneLeft _ (ih3 c)
    · -- the composite validation enters its element loop
      intro c
      exact optBindNoneLeft _ (ih4 c)
    · -- the element loop checks the nil oracle, then traces the variable
      intro c
      cases hnil : isNilValueF fuel envCyc identACyc with
      | none => exact optBindNoneLeft _ hnil
      | some b =>
        cases b with
        | true => exact absurd hnil ih6
        | false =>
          simp only [goEltsAtUseF, hnil, Option.bind_eq_bind, Option.some_bind]
          exact optBindNoneLeft _ (ih5 (c ++ "." ++ "F"))
    · -- tracing the identifier goes back to the variable search
      intro c
      exact ih1 c
    · -- the nil oracle on the identifier asks the variable oracle
      intro h
      exact ih7 h
    · -- the variable oracle checks the initializers
      intro h
      exact ih8 h
    · -- the initializer loop asks the nil oracle on the address-of value
      intro h
      cases hv : isNilValueF fuel envCyc vACyc with
      | none =>
        simp only [anyNilF, hv, Option.bind_eq_bind, Option.none_bind] at h
        exact Option.noConfusion h
      | some b =>
        cases b with
        | true => exact absurd hv ih9
        | false =>
          simp only [anyNilF, hv, Option.bind_eq_bind, Option.some_bind, Bool.false_eq_true,
            if_false] at h
          cases fuel with
          | zero => exact Option.noConfusion h
          | succ f2 => exact Bool.noConfusion (Option.some.inj h)
    · -- the nil oracle on the address-of recurses into the composite
      intro h
      exact ih10 h
    · -- a composite literal is never the literal nil
      intro h
      exact Bool.noConfusion (Option.some.inj h)

/-- C6 (code bug): the validation walk has no cycle guard; on a
self-referential variable initializer it never completes: every fuel bound is
exhausted, i.e. the recursion of the source diverges. -/
theorem selfRefInitializerNeverCompletes :
    ∀ fuel : Nat,
      validateVariableMessageAtPosF fuel envCyc "a" (some 1) (.pointer (.named "T")) "User" 99
        = none :=
  fun fuel => (cycNone fuel).1 "User"


/-! ### C8: the visited set -/

theorem natNotMemOfContainsFalse {l : List Nat} {a : Nat}
    (h : l.contains a = false) : a ∉ l := by
  induction l with
  | nil => exact List.not_mem_nil a
  | cons b bs ih =>
    simp only [List.contains_cons, Bool.or_eq_false_iff, beq_eq_false_iff_ne] at h
    intro hm
    rcases List.mem_cons.mp hm with rfl | hm2
    · exact h.1 rfl
    · exact ih h.2 hm2

/-- Invariant of the return-result loop of run: the positions validated there
are new (not yet visited), end up in the final visited set, never repeat, and
the visited set only grows. -/
theorem retResultsInv (fuel : Nat) (env : Env) :
    ∀ (results : List GoExpr) (visited : List Nat) (out : List Nat × List Nat × List Diag),
      retResultsF fuel env results visited = some out →
      out.2.1.Nodup
        ∧ (∀ i ∈ out.2.1, i ∉ visited ∧ i ∈ out.1)
        ∧ (∀ i ∈ visited, i ∈ out.1) := by
  intro results
  induction results with
  | nil =>
    intro visited out h
    simp only [retResultsF] at h
    cases h
    exact ⟨List.nodup_nil, fun i hi => absurd hi (List.not_mem_nil i), fun i hi => hi⟩
  | cons r rest ih =>
    intro visited out h
    match r with
    | .identE a b c d e => exact ih _ _ h
    | .callE f a b c => exact ih _ _ h
    | .unaryE a b c d => exact ih _ _ h
    | .selectorE a b c d => exact ih _ _ h
    | .otherE a b => exact ih _ _ h
    | .compositeE ty elts pos =>
      simp only [retResultsF] at h
      split at h
      · -- already visited
        exact ih _ _ h
      · rename_i hcont
        have hnew : pos ∉ visited := natNotMemOfContainsFalse (by
          cases hc : List.contains visited pos
          · rfl
          · rw [hc] at hcont; exact absurd rfl hcont)
        split at h
        · split at h
          · -- response type: validated here
            simp only [Option.bind_eq_bind, Option.bind_eq_some] at h
            obtain ⟨ds, hds, h⟩ := h
            obtain ⟨a, ha, h⟩ := h
            obtain ⟨v2, t2, d2⟩ := a
            simp only [Option.some.injEq] at h
            subst h
            obtain ⟨hnd, hmem, hgrow⟩ := ih _ _ ha
            refine ⟨?_, ?_, ?_⟩
            · refine List.nodup_cons.mpr ⟨?_, hnd⟩
              intro hp
              exact (hmem pos hp).1 (List.mem_cons_self _ _)
            · intro i hi
              rcases List.mem_cons.mp hi with rfl | hi2
              · exact ⟨hnew, hgrow i (List.mem_cons_self _ _)⟩
              · exact ⟨fun hv => (hmem i hi2).1 (List.mem_cons_of_mem _ hv), (hmem i hi2).2⟩
            · intro i hi
              exact hgrow i (List.mem_cons_of_mem _ hi)
          · -- not a response type: only marked
            obtain ⟨hnd, hmem, hgrow⟩ := ih _ _ h
            refine ⟨hnd, ?_, ?_⟩
            · intro i hi
              exact ⟨fun hv => (hmem i hi).1 (List.mem_cons_of_mem _ hv), (hmem i hi).2⟩
            · intro i hi
              exact hgrow i (List.mem_cons_of_mem _ hi)
        · -- no type information: only marked
          obtain ⟨hnd, hmem, hgrow⟩ := ih _ _ h
          refine ⟨hnd, ?_, ?_⟩
          · intro i hi
            exact ⟨fun hv => (hmem i hi).1 (List.mem_cons_of_mem _ hv), (hmem i hi).2⟩
          · intro i hi
            exact hgrow i (List.mem_cons_of_mem _ hi)

/-- Same invariant for the full node fold of run. -/
theorem runNodesInv (fuel : Nat) (env : Env) :
    ∀ (nodes : List RNode) (visited : List Nat) (out : List Nat × List Nat × List Diag),
      runNodesF fuel env nodes visited = some out →
      out.2.1.Nodup
        ∧ (∀ i ∈ out.2.1, i ∉ visited ∧ i ∈ out.1)
        ∧ (∀ i ∈ visited, i ∈ out.1) := by
  intro nodes
  induction nodes with
  | nil =>
    intro visited out h
    simp only [runNodesF] at h
    cases h
    exact ⟨List.nodup_nil, fun i hi => absurd hi (List.not_mem_nil i), fun i hi => hi⟩
  | cons n rest ih =>
    intro visited out h
    match n with
    | .assignN d lhs rhs =>
      simp only [runNodesF, Option.bind_eq_bind, Option.bind_eq_some] at h
      obtain ⟨ds, hds, h⟩ := h
      obtain ⟨a, ha, h⟩ := h
      obtain ⟨v2, t2, d2⟩ := a
      simp only [Option.some.injEq] at h
      subst h
      obtain ⟨a1, a2, a3⟩ := ih _ _ ha
      exact ⟨a1, a2, a3⟩
    | .retN results =>
      simp only [runNodesF, Option.bind_eq_bind, Option.bind_eq_some] at h
      obtain ⟨a, ha, h⟩ := h
      obtain ⟨v1, t1, d1⟩ := a
      obtain ⟨b, hb, h⟩ := h
      obtain ⟨v2, t2, d2⟩ := b
      simp only [Option.some.injEq] at h
      subst h
      obtain ⟨rnd, rmem, rgrow⟩ := retResultsInv fuel env results visited _ ha
      obtain ⟨nnd, nmem, ngrow⟩ := ih _ _ hb
      refine ⟨?_, ?_, ?_⟩
      · refine List.Nodup.append rnd nnd ?_
        intro i hi1 hi2
        exact (nmem i hi2).1 ((rmem i hi1).2)
      · intro i hi
        rcases List.mem_append.mp hi with hi1 | hi2
        · exact ⟨(rmem i hi1).1, ngrow i ((rmem i hi1).2)⟩
        · exact ⟨fun hv => (nmem i hi2).1 (rgrow i hv), (nmem i hi2).2⟩
      · intro i hi
        exact ngrow i (rgrow i hi)
    | .compN ty elts pos =>
      simp only [runNodesF] at h
      split at h
      · exact ih _ _ h
      · rename_i hcont
        have hnew : pos ∉ visited := natNotMemOfContainsFalse (by
          cases hc : List.contains visited pos
          · rfl
          · rw [hc] at hcont; exact absurd rfl hcont)
        split at h
        · split at h
          · simp only [Option.bind_eq_bind, Option.bind_eq_some] at h
            obtain ⟨ds, hds, h⟩ := h
            obtain ⟨a, ha, h⟩ := h
            obtain ⟨v2, t2, d2⟩ := a
            simp only [Option.some.injEq] at h
            subst h
            obtain ⟨hnd, hmem, hgrow⟩ := ih _ _ ha
            refine ⟨?_, ?_, ?_⟩
            · refine List.nodup_cons.mpr ⟨?_, hnd⟩
              intro hp
              exact (hmem pos hp).1 (List.mem_cons_self _ _)
            · intro i hi
              rcases List.mem_cons.mp hi with rfl | hi2
              · exact ⟨hnew, hgrow i (List.mem_cons_self _ _)⟩
              · exact ⟨fun hv => (hmem i hi2).1 (List.mem_cons_of_mem _ hv), (hmem i hi2).2⟩
            · intro i hi
              exact hgrow i (List.mem_cons_of_mem _ hi)
          · obtain ⟨hnd, hmem, hgrow⟩ := ih _ _ h
            refine ⟨hnd, ?_, ?_⟩
            · intro i hi
              exact ⟨fun hv => (hmem i hi).1 (List.mem_cons_of_mem _ hv), (hmem i hi).2⟩
            · intro i hi
              exact hgrow i (List.mem_cons_of_mem _ hi)
        · obtain ⟨hnd, hmem, hgrow⟩ := ih _ _ h
          refine ⟨hnd, ?_, ?_⟩
          · intro i hi
            exact ⟨fun hv => (hmem i hi).1 (List.mem_cons_of_mem _ hv), (hmem i hi).2⟩
          · intro i hi
            exact hgrow i (List.mem_cons_of_mem _ hi)

/-- C8: during one run every composite construction node enters
checkCompositeLiteral at most once (the trace of entered positions never
repeats), and concretely, the construction of the example response reachable
both as a return result and as a bare composite node is validated exactly
once, with its diagnostics emitted once. -/
theorem compositeValidatedAtMostOnce :
    (∀ (fuel : Nat) (env : Env) (nodes : List RNode) (out : List Nat × List Nat × List Diag),
        runNodesF fuel env nodes [] = some out → out.2.1.Nodup)
      ∧ runNodesF 4 envPing
          [.retN [.compositeE (some (.named "PingResponse")) [] 5],
           .compN (some (.named "PingResponse")) [] 5] []
        = some ([5], [5], [⟨5, DiagKind.uninit, ["Data", "PingResponse"]⟩]) :=
  ⟨fun fuel env nodes out h => (runNodesInv fuel env nodes [] out h).1, by decide⟩

/-- Witness for C8: the at-most-once statement applied to the concrete
two-entry node stream, whose trace is the single position 5. -/
theorem compositeValidatedAtMostOnce_witness : ([5] : List Nat).Nodup :=
  compositeValidatedAtMostOnce.1 4 envPing
    [.retN [.compositeE (some (.named "PingResponse")) [] 5],
     .compN (some (.named "PingResponse")) [] 5]
    ([5], [5], [⟨5, DiagKind.uninit, ["Data", "PingResponse"]⟩]) (by decide)

end GoNoNil
